import Mathlib

/-!
# Verification of the ohmu TIL bytecode codec (`src/til/Bytecode.h`)

This file gives a shallow embedding of the bytecode serialization subsystem
of the ohmu typed intermediate language (TIL) and proves the specification
claims about it.

The repository provides the header `Bytecode.h` (class declarations plus the
inline method bodies) and `AnnotationImpl.h`.  The out-of-line bodies
(`Bytecode.cpp`: bit packing, VBR coding, the per-node `reduce*` / `read*`
routines and the `read()` driver loop) are not part of the sources, so those
parts are modelled from the specification, as indicated in the doc comments.

The bit stream is modelled as a `List Bool`, least-significant bit first,
exactly as the spec describes the bit cursor: "Writes/reads of N bits
produce/consume that many bits in little-endian order, spanning bytes as
needed."
-/

namespace Ohmu

/-! ## Bit-level stream: `writeBits` / `readBits`

Modelled from the spec: the bodies of `ByteStreamWriterBase::writeBits32/64`
and `ByteStreamReaderBase::readBits32/64` live in the missing `Bytecode.cpp`;
the spec (§3 "Bit cursor", §4.A "Bit packing") fixes them: N bits of value V
are emitted LSB-first; values are zero-extended, never sign-extended. -/

/-- Emit the low `n` bits of `v`, least-significant first.
This is `writeBits32`/`writeBits64` (§4.A). -/
def natBits : Nat → Nat → List Bool
  | 0, _ => []
  | n + 1, v => (v % 2 == 1) :: natBits n (v / 2)

/-- Reassemble a little-endian bit list into a natural number. -/
def bitsToNat : List Bool → Nat
  | [] => 0
  | b :: bs => (if b then 1 else 0) + 2 * bitsToNat bs

/-- Read `n` bits from the stream; fails when fewer are available.
This is `readBits32`/`readBits64` (§4.B). -/
def readBits (n : Nat) (s : List Bool) : Option (Nat × List Bool) :=
  if n ≤ s.length then some (bitsToNat (s.take n), s.drop n) else none

theorem natBits_length (n v : Nat) : (natBits n v).length = n := by
  induction n generalizing v with
  | zero => rfl
  | succ n ih => simp [natBits, ih]

theorem bitsToNat_natBits (n v : Nat) (h : v < 2 ^ n) :
    bitsToNat (natBits n v) = v := by
  induction n generalizing v with
  | zero =>
    simp at h
    simp [h, natBits, bitsToNat]
  | succ n ih =>
    have hv : v / 2 < 2 ^ n := by
      have h2 : (2 : Nat) ^ (n + 1) = 2 * 2 ^ n := by ring
      omega
    simp only [natBits, bitsToNat, ih (v / 2) hv]
    rcases Nat.mod_two_eq_zero_or_one v with h0 | h1
    · simp [h0]; omega
    · simp [h1]; omega

theorem bitsToNat_lt (bs : List Bool) : bitsToNat bs < 2 ^ bs.length := by
  induction bs with
  | nil => simp [bitsToNat]
  | cons b bs ih =>
    simp only [bitsToNat, List.length_cons, pow_succ]
    cases b <;> simp <;> omega

/-- Reading `n` bits from a stream that starts with an `n`-bit write of `v`
recovers `v` and leaves the rest of the stream untouched. -/
theorem readBits_natBits (n v : Nat) (r : List Bool) (h : v < 2 ^ n) :
    readBits n (natBits n v ++ r) = some (v, r) := by
  have hl : (natBits n v).length = n := natBits_length n v
  have ht : (natBits n v ++ r).take n = natBits n v := List.take_left' hl
  have hd : (natBits n v ++ r).drop n = r := List.drop_left' hl
  simp [readBits, hl, ht, hd, bitsToNat_natBits n v h]

/-! ## Variable-byte-rate (VBR) integer codec

Modelled from the spec: `writeUInt32_Vbr` / `writeUInt64_Vbr` and
`readUInt32_Vbr` / `readUInt64_Vbr` are declared in `Bytecode.h` but their
bodies are in the missing `Bytecode.cpp`.  The spec (§3 "VBR integer", §4.A
"VBR encoding") fixes the format: a sequence of 7-bit groups, least
significant first, each group preceded by a 1-bit continuation flag
(1 = more groups follow, 0 = last); the decoder accepts up to 5 groups for
32-bit values and up to 10 groups for 64-bit values. -/

/-- Encode `v` as VBR groups: continuation flag first, then the 7-bit group,
least-significant group first. -/
def vbrEncode (v : Nat) : List Bool :=
  if h : v < 128 then
    false :: natBits 7 v
  else
    true :: natBits 7 (v % 128) ++ vbrEncode (v / 128)
termination_by v
decreasing_by
  exact Nat.div_lt_self (by omega) (by omega)

/-- Decode a VBR chain of at most `m` groups; `none` on a stream that is too
short or whose continuation chain exceeds `m` groups. -/
def vbrDecode (m : Nat) (s : List Bool) : Option (Nat × List Bool) :=
  match m, s with
  | 0, _ => none
  | _ + 1, [] => none
  | m + 1, c :: rest =>
    match readBits 7 rest with
    | none => none
    | some (g, rest') =>
      if c then
        match vbrDecode m rest' with
        | none => none
        | some (v, rest'') => some (g + 128 * v, rest'')
      else
        some (g, rest')

/-- `ByteStreamWriterBase::writeUInt32_Vbr` (modelled from the spec). -/
def writeUInt32_Vbr (v : Nat) : List Bool := vbrEncode (v % 2 ^ 32)

/-- `ByteStreamWriterBase::writeUInt64_Vbr` (modelled from the spec). -/
def writeUInt64_Vbr (v : Nat) : List Bool := vbrEncode (v % 2 ^ 64)

/-- `ByteStreamReaderBase::readUInt32_Vbr` (modelled from the spec): accepts
at most 5 groups. -/
def readUInt32_Vbr (s : List Bool) : Option (Nat × List Bool) := vbrDecode 5 s

/-- `ByteStreamReaderBase::readUInt64_Vbr` (modelled from the spec): accepts
at most 10 groups. -/
def readUInt64_Vbr (s : List Bool) : Option (Nat × List Bool) := vbrDecode 10 s

theorem vbrDecode_vbrEncode (m : Nat) :
    ∀ v r, 0 < m → v < 128 ^ m →
      vbrDecode m (vbrEncode v ++ r) = some (v, r) := by
  induction m with
  | zero => intro v r h0 _; omega
  | succ m ih =>
    intro v r _ hv
    rw [vbrEncode]
    by_cases h : v < 128
    · simp only [h, dif_pos, List.cons_append]
      simp [vbrDecode, readBits_natBits 7 v r (by omega)]
    · simp only [h, dif_neg, List.cons_append, List.append_assoc]
      have hg : v % 128 < 2 ^ 7 := by
        have := Nat.mod_lt v (y := 128) (by omega)
        omega
      have hm : 0 < m := by
        by_contra hm0
        have hmz : m = 0 := by omega
        subst hmz
        simp [pow_succ, pow_zero] at hv
        omega
      have hdiv : v / 128 < 128 ^ m := by
        have h128 : (128 : Nat) ^ (m + 1) = 128 * 128 ^ m := by ring
        omega
      have h1 := readBits_natBits 7 (v % 128) (vbrEncode (v / 128) ++ r) hg
      have h2 := ih (v / 128) r hm hdiv
      have hvr : v % 128 + 128 * (v / 128) = v := by omega
      simp [vbrDecode, h1, h2, hvr]

/-! ## Fixed field-width table (`BytecodeBase::getBitSizeImpl`)

Embedded directly from the inline bodies in `Bytecode.h` (lines 46-61).
Both `BytecodeWriter` and `BytecodeReader` inherit this single table from
`BytecodeBase`, so writer and reader necessarily agree on every width. -/

/-- The enumerated field kinds that have a canonical bit width. -/
inductive FieldKind where
  | psop          -- PseudoOpcode
  | opcode        -- TIL_Opcode
  | annKind       -- TIL_AnnKind
  | unaryOpcode   -- TIL_UnaryOpcode
  | binaryOpcode  -- TIL_BinaryOpcode
  | castOpcode    -- TIL_CastOpcode
  | varKind       -- VarDecl::VariableKind
  | callingConv   -- Code::CallingConvention
  | applyKind     -- Apply::ApplyKind
  | allocKind     -- Alloc::AllocKind
  deriving DecidableEq

/-- `BytecodeBase::getBitSizeImpl`, one clause per overload. -/
def getBitSize : FieldKind → Nat
  | .psop => 6
  | .opcode => 6
  | .annKind => 8
  | .unaryOpcode => 6
  | .binaryOpcode => 6
  | .castOpcode => 6
  | .varKind => 2
  | .callingConv => 4
  | .applyKind => 2
  | .allocKind => 2

/-- `BytecodeWriter::writeFlag`: emits the flag value in the canonical width
of its field kind (`writeBits32(Flag, getBitSize<T>())`). -/
def writeFlag (k : FieldKind) (v : Nat) : List Bool :=
  natBits (getBitSize k) v

/-- `BytecodeReader::readFlag`: reads `getBitSize<T>()` bits
(`Reader->readBits32(getBitSize<T>())`). -/
def readFlag (k : FieldKind) (s : List Bool) : Option (Nat × List Bool) :=
  readBits (getBitSize k) s

/-- `ByteStreamWriterBase::writeBool`: `writeBits32(V, 1)`. -/
def writeBool (v : Bool) : List Bool := natBits 1 (if v then 1 else 0)

/-- `ByteStreamReaderBase::readBool`: `readBits32(1)`. -/
def readBool (s : List Bool) : Option (Bool × List Bool) :=
  (readBits 1 s).map (fun p => (p.1 == 1, p.2))

/-! ## Opcode encoding (`BytecodeWriter::writeOpcode`, `BytecodeReader::getOpcode`)

Embedded from the inline bodies in `Bytecode.h` (lines 216-223, 356-360).
The `PseudoOpcode` enum gives `PSOP_Null = 0` through `PSOP_Annotation = 8`
and the sentinel `PSOP_Last = 9`. -/

/-- The numeric values of the `PseudoOpcode` enum. -/
def PSOP_Null : Nat := 0
def PSOP_WeakInstrRef : Nat := 1
def PSOP_BBArgument : Nat := 2
def PSOP_BBInstruction : Nat := 3
def PSOP_EnterScope : Nat := 4
def PSOP_ExitScope : Nat := 5
def PSOP_EnterBlock : Nat := 6
def PSOP_EnterCFG : Nat := 7
def PSOP_Annot : Nat := 8  -- PSOP_Annotation in the C++ enum
def PSOP_Last : Nat := 9

/-- `BytecodeWriter::writePseudoOpcode`: `writeFlag(Psop)` at 6 bits. -/
def writePseudoOpcode (psop : Nat) : List Bool := writeFlag .psop psop

/-- `BytecodeWriter::writeOpcode`: emits `PSOP_Last + Op` as a 6-bit
pseudo-opcode field. -/
def writeOpcode (op : Nat) : List Bool := writePseudoOpcode (PSOP_Last + op)

/-- `BytecodeReader::readPseudoOpcode`: reads one 6-bit flag. -/
def readPseudoOpcode (s : List Bool) : Option (Nat × List Bool) :=
  readFlag .psop s

/-- `BytecodeReader::getOpcode`: recovers a real opcode as `Psop - PSOP_Last`. -/
def getOpcode (psop : Nat) : Nat := psop - PSOP_Last

/-- Modelled from the spec: the reader's dispatch loop (in the missing
`Bytecode.cpp`) classifies a 6-bit code as a real IR opcode exactly when it
is `≥ PSOP_Last` ("readers distinguish by numeric range", spec §3). -/
def isRealOpcode (psop : Nat) : Prop := PSOP_Last ≤ psop

instance (psop : Nat) : Decidable (isRealOpcode psop) := by
  unfold isRealOpcode
  infer_instance

theorem writeFlag_length (k : FieldKind) (v : Nat) :
    (writeFlag k v).length = getBitSize k := natBits_length _ _

theorem readFlag_writeFlag (k : FieldKind) (v : Nat) (r : List Bool)
    (h : v < 2 ^ getBitSize k) :
    readFlag k (writeFlag k v ++ r) = some (v, r) :=
  readBits_natBits _ v r h

theorem readBool_writeBool (b : Bool) (s : List Bool) :
    readBool (writeBool b ++ s) = some (b, s) := by
  cases b
  · simp [writeBool, readBool, readBits_natBits 1 0 s (by norm_num)]
  · simp [writeBool, readBool, readBits_natBits 1 1 s (by norm_num)]

/-- C2: for every 32-bit value and every 64-bit value, writing it with the
VBR codec and reading it back yields the value; the encoding is 7-bit groups
LSB-first with a leading continuation flag per group, and the decoder rejects
a continuation chain of more than 5 groups (32-bit) resp. 10 groups (64-bit). -/
theorem claim_C2_vbr_roundtrip :
    (∀ v r, v < 2 ^ 32 → readUInt32_Vbr (writeUInt32_Vbr v ++ r) = some (v, r)) ∧
    (∀ v r, v < 2 ^ 64 → readUInt64_Vbr (writeUInt64_Vbr v ++ r) = some (v, r)) ∧
    readUInt32_Vbr ((List.replicate 5 (true :: List.replicate 7 false)).flatten
      ++ (false :: List.replicate 7 false)) = none ∧
    readUInt64_Vbr ((List.replicate 10 (true :: List.replicate 7 false)).flatten
      ++ (false :: List.replicate 7 false)) = none := by
  refine ⟨?_, ?_, by decide, by decide⟩
  · intro v r hv
    have hmod : v % 2 ^ 32 = v := Nat.mod_eq_of_lt hv
    have hb : v < 128 ^ 5 := by norm_num at hv ⊢; omega
    simp only [readUInt32_Vbr, writeUInt32_Vbr, hmod]
    exact vbrDecode_vbrEncode 5 v r (by norm_num) hb
  · intro v r hv
    have hmod : v % 2 ^ 64 = v := Nat.mod_eq_of_lt hv
    have hb : v < 128 ^ 10 := by norm_num at hv ⊢; omega
    simp only [readUInt64_Vbr, writeUInt64_Vbr, hmod]
    exact vbrDecode_vbrEncode 10 v r (by norm_num) hb

theorem claim_C2_vbr_roundtrip_witness :
    readUInt32_Vbr (writeUInt32_Vbr 300 ++ []) = some (300, []) :=
  claim_C2_vbr_roundtrip.1 300 [] (by norm_num)

/-- C8: writer and reader use the same fixed width table: every enumerated
field kind has exactly its canonical width (pseudo-opcode and IR opcode 6,
annotation kind 8, unary/binary/cast opcode 6, variable kind 2, calling
convention 4, apply kind 2, alloc kind 2, boolean 1), the writer emits
exactly that many bits, and reading a written flag back through the shared
table recovers it, so widths never need to be transmitted. -/
theorem claim_C8_field_width_table :
    getBitSize .psop = 6 ∧ getBitSize .opcode = 6 ∧ getBitSize .annKind = 8 ∧
    getBitSize .unaryOpcode = 6 ∧ getBitSize .binaryOpcode = 6 ∧
    getBitSize .castOpcode = 6 ∧ getBitSize .varKind = 2 ∧
    getBitSize .callingConv = 4 ∧ getBitSize .applyKind = 2 ∧
    getBitSize .allocKind = 2 ∧
    (∀ v : Bool, (writeBool v).length = 1) ∧
    (∀ k v, (writeFlag k v).length = getBitSize k) ∧
    (∀ b s, readBool (writeBool b ++ s) = some (b, s)) ∧
    (∀ k v r, v < 2 ^ getBitSize k → readFlag k (writeFlag k v ++ r) = some (v, r)) := by
  refine ⟨rfl, rfl, rfl, rfl, rfl, rfl, rfl, rfl, rfl, rfl, ?_, ?_, ?_, ?_⟩
  · intro v; cases v <;> rfl
  · exact writeFlag_length
  · exact readBool_writeBool
  · exact readFlag_writeFlag

theorem claim_C8_field_width_table_witness :
    2 < 2 ^ getBitSize FieldKind.varKind ∧
    readFlag FieldKind.varKind (writeFlag FieldKind.varKind 2 ++ []) = some (2, []) :=
  ⟨by decide, claim_C8_field_width_table.2.2.2.2.2.2.2.2.2.2.2.2.2
     FieldKind.varKind 2 [] (by decide)⟩

/-- C3: real IR opcodes and pseudo-opcodes share one 6-bit code space: the
writer emits `PSOP_Last + Op` as the 6-bit code, the reader classifies a code
as a real opcode exactly when it is `≥ PSOP_Last`, and `getOpcode` inverts
the encoding (`getOpcode (PSOP_Last + Op) = Op`) for every opcode that fits
in the 6-bit space together with the pseudo-opcode range. -/
theorem claim_C3_opcode_encoding :
    (∀ op r, PSOP_Last + op < 2 ^ 6 →
        readPseudoOpcode (writeOpcode op ++ r) = some (PSOP_Last + op, r) ∧
        isRealOpcode (PSOP_Last + op) ∧
        getOpcode (PSOP_Last + op) = op) ∧
    (∀ p, p < PSOP_Last → ¬ isRealOpcode p) := by
  constructor
  · intro op r h
    refine ⟨?_, ?_, ?_⟩
    · exact readFlag_writeFlag .psop (PSOP_Last + op) r h
    · simp [isRealOpcode, PSOP_Last]
    · simp [getOpcode, PSOP_Last]
  · intro p hp
    simp only [isRealOpcode]
    omega

theorem claim_C3_opcode_encoding_witness :
    readPseudoOpcode (writeOpcode 12 ++ []) = some (PSOP_Last + 12, []) ∧
    isRealOpcode (PSOP_Last + 12) ∧ getOpcode (PSOP_Last + 12) = 12 ∧
    ¬ isRealOpcode PSOP_Annot :=
  have h := claim_C3_opcode_encoding.1 12 [] (by decide)
  ⟨h.1, h.2.1, h.2.2, claim_C3_opcode_encoding.2 PSOP_Annot (by decide)⟩

/-! ## Fixed-width signed and unsigned integer fields

`writeInt8/16/32/64` and `readInt8/16/32/64`, and the `writeUInt8/16` and
`readUInt8/16` wrappers, are inline in `Bytecode.h` (lines 105-113, 175-183).
The C++ casts are modelled exactly: `static_cast<uintN_t>` of a signed value
is reduction mod `2^N` (two's complement), `static_cast<intN_t>` of the
decoded unsigned value maps `n ≥ 2^(N-1)` to `n - 2^N`, and
`static_cast<uintN_t>` of a wider unsigned value is truncation mod `2^N`. -/

/-- `static_cast<uint w>` of a signed value: the two's-complement bit
pattern as a natural number. -/
def toUInt (w : Nat) (v : Int) : Nat := (v % (2 ^ w : Int)).toNat

/-- `static_cast<int w>` of an unsigned value: reinterpret the bit pattern
as a two's-complement signed value. -/
def toSInt (w : Nat) (n : Nat) : Int :=
  if n < 2 ^ (w - 1) then (n : Int) else (n : Int) - 2 ^ w

/-- `writeInt8`: `writeBits32(static_cast<uint8_t>(V), 8)`. -/
def writeInt8 (v : Int) : List Bool := natBits 8 (toUInt 8 v)
/-- `writeInt16`: `writeBits32(static_cast<uint16_t>(V), 16)`. -/
def writeInt16 (v : Int) : List Bool := natBits 16 (toUInt 16 v)
/-- `writeInt32`: `writeBits32(static_cast<uint32_t>(V), 32)`. -/
def writeInt32 (v : Int) : List Bool := natBits 32 (toUInt 32 v)
/-- `writeInt64`: `writeBits64(static_cast<uint64_t>(V), 64)`. -/
def writeInt64 (v : Int) : List Bool := natBits 64 (toUInt 64 v)

/-- `readInt8`: `static_cast<int8_t>(readBits32(8))`. -/
def readInt8 (s : List Bool) : Option (Int × List Bool) :=
  (readBits 8 s).map (fun p => (toSInt 8 p.1, p.2))
/-- `readInt16`: `static_cast<int16_t>(readBits32(16))`. -/
def readInt16 (s : List Bool) : Option (Int × List Bool) :=
  (readBits 16 s).map (fun p => (toSInt 16 p.1, p.2))
/-- `readInt32`: `static_cast<int32_t>(readBits32(32))`. -/
def readInt32 (s : List Bool) : Option (Int × List Bool) :=
  (readBits 32 s).map (fun p => (toSInt 32 p.1, p.2))
/-- `readInt64`: `static_cast<int64_t>(readBits64(64))`. -/
def readInt64 (s : List Bool) : Option (Int × List Bool) :=
  (readBits 64 s).map (fun p => (toSInt 64 p.1, p.2))

/-- `writeUInt8`: `writeBits32(V, 8)` — a raw fixed 8-bit field. -/
def writeUInt8 (v : Nat) : List Bool := natBits 8 (v % 2 ^ 8)
/-- `writeUInt16`: `writeUInt32_Vbr(V)` — routed through the 32-bit VBR codec. -/
def writeUInt16 (v : Nat) : List Bool := writeUInt32_Vbr (v % 2 ^ 16)
/-- `readUInt8`: `static_cast<uint8_t>(readBits32(8))`. -/
def readUInt8 (s : List Bool) : Option (Nat × List Bool) :=
  (readBits 8 s).map (fun p => (p.1 % 2 ^ 8, p.2))
/-- `readUInt16`: `static_cast<uint16_t>(readUInt32_Vbr())` — the decoded
32-bit VBR value truncated to 16 bits. -/
def readUInt16 (s : List Bool) : Option (Nat × List Bool) :=
  (readUInt32_Vbr s).map (fun p => (p.1 % 2 ^ 16, p.2))

theorem toUInt_lt (w : Nat) (v : Int) : toUInt w v < 2 ^ w := by
  have hc : ((2 ^ w : Nat) : Int) = (2 : Int) ^ w := by push_cast; ring
  have hpos : (0 : Int) < 2 ^ w := by positivity
  have h1 := Int.emod_lt_of_pos v (b := 2 ^ w) hpos
  have h2 := Int.emod_nonneg v (by positivity : (2 ^ w : Int) ≠ 0)
  simp only [toUInt]
  omega

theorem toSInt_toUInt_8 (v : Int) (h1 : -(2 ^ 7) ≤ v) (h2 : v < 2 ^ 7) :
    toSInt 8 (toUInt 8 v) = v := by
  simp only [toSInt, toUInt]
  norm_num at h1 h2 ⊢
  split <;> omega

theorem toSInt_toUInt_16 (v : Int) (h1 : -(2 ^ 15) ≤ v) (h2 : v < 2 ^ 15) :
    toSInt 16 (toUInt 16 v) = v := by
  simp only [toSInt, toUInt]
  norm_num at h1 h2 ⊢
  split <;> omega

theorem toSInt_toUInt_32 (v : Int) (h1 : -(2 ^ 31) ≤ v) (h2 : v < 2 ^ 31) :
    toSInt 32 (toUInt 32 v) = v := by
  simp only [toSInt, toUInt]
  norm_num at h1 h2 ⊢
  split <;> omega

theorem toSInt_toUInt_64 (v : Int) (h1 : -(2 ^ 63) ≤ v) (h2 : v < 2 ^ 63) :
    toSInt 64 (toUInt 64 v) = v := by
  simp only [toSInt, toUInt]
  norm_num at h1 h2 ⊢
  split <;> omega

/-- C7: signed integer literals of widths 8/16/32/64 are written as raw
fixed-width bit patterns of exactly that many bits via zero-extending
unsigned casts, and reading back through the corresponding `readIntN`
recovers the original signed value for every in-range input. -/
theorem claim_C7_signed_int_roundtrip :
    (∀ v : Int, (writeInt8 v).length = 8 ∧ (writeInt16 v).length = 16 ∧
        (writeInt32 v).length = 32 ∧ (writeInt64 v).length = 64 ∧
        toUInt 8 v < 2 ^ 8 ∧ toUInt 16 v < 2 ^ 16 ∧
        toUInt 32 v < 2 ^ 32 ∧ toUInt 64 v < 2 ^ 64) ∧
    (∀ v r, -(2 ^ 7) ≤ v → v < 2 ^ 7 →
        readInt8 (writeInt8 v ++ r) = some (v, r)) ∧
    (∀ v r, -(2 ^ 15) ≤ v → v < 2 ^ 15 →
        readInt16 (writeInt16 v ++ r) = some (v, r)) ∧
    (∀ v r, -(2 ^ 31) ≤ v → v < 2 ^ 31 →
        readInt32 (writeInt32 v ++ r) = some (v, r)) ∧
    (∀ v r, -(2 ^ 63) ≤ v → v < 2 ^ 63 →
        readInt64 (writeInt64 v ++ r) = some (v, r)) := by
  refine ⟨?_, ?_, ?_, ?_, ?_⟩
  · intro v
    exact ⟨natBits_length _ _, natBits_length _ _, natBits_length _ _,
      natBits_length _ _, toUInt_lt 8 v, toUInt_lt 16 v, toUInt_lt 32 v,
      toUInt_lt 64 v⟩
  · intro v r h1 h2
    simp [readInt8, writeInt8, readBits_natBits 8 _ r (toUInt_lt 8 v),
      toSInt_toUInt_8 v h1 h2]
  · intro v r h1 h2
    simp [readInt16, writeInt16, readBits_natBits 16 _ r (toUInt_lt 16 v),
      toSInt_toUInt_16 v h1 h2]
  · intro v r h1 h2
    simp [readInt32, writeInt32, readBits_natBits 32 _ r (toUInt_lt 32 v),
      toSInt_toUInt_32 v h1 h2]
  · intro v r h1 h2
    simp [readInt64, writeInt64, readBits_natBits 64 _ r (toUInt_lt 64 v),
      toSInt_toUInt_64 v h1 h2]

theorem claim_C7_signed_int_roundtrip_witness :
    readInt8 (writeInt8 (-1) ++ []) = some (-1, []) :=
  claim_C7_signed_int_roundtrip.2.1 (-1) [] (by norm_num) (by norm_num)

/-- C10 (implicit): unsigned 16-bit values are not raw 16-bit fields but are
routed through the 32-bit VBR codec (`writeUInt16` calls `writeUInt32_Vbr`,
`readUInt16` truncates the decoded 32-bit VBR value to 16 bits), and the
write-then-read composition is the identity on every `uint16`; `writeUInt8` /
`readUInt8` instead use a raw fixed 8-bit field. -/
theorem claim_C10_uint16_via_vbr :
    (∀ v, writeUInt16 v = writeUInt32_Vbr (v % 2 ^ 16)) ∧
    (∀ v r, v < 2 ^ 16 → readUInt16 (writeUInt16 v ++ r) = some (v, r)) ∧
    (∀ v, (writeUInt8 v).length = 8) ∧
    (∀ v r, v < 2 ^ 8 → readUInt8 (writeUInt8 v ++ r) = some (v, r)) := by
  refine ⟨fun v => rfl, ?_, fun v => natBits_length _ _, ?_⟩
  · intro v r hv
    have hm16 : v % 2 ^ 16 = v := Nat.mod_eq_of_lt hv
    have hm32 : v % 2 ^ 32 = v := Nat.mod_eq_of_lt (by omega)
    have hb : v < 128 ^ 5 := by norm_num at hv ⊢; omega
    have hdec : vbrDecode 5 (vbrEncode v ++ r) = some (v, r) :=
      vbrDecode_vbrEncode 5 v r (by norm_num) hb
    simp only [readUInt16, writeUInt16, writeUInt32_Vbr, readUInt32_Vbr,
      hm16, hm32, hdec, Option.map_some']
  · intro v r hv
    have hlt : v % 2 ^ 8 < 2 ^ 8 := Nat.mod_lt _ (by norm_num)
    have h1 := readBits_natBits 8 (v % 2 ^ 8) r hlt
    simp only [readUInt8, writeUInt8, h1, Option.map_some']
    have hmm : v % 2 ^ 8 % 2 ^ 8 = v := by omega
    rw [hmm]

theorem claim_C10_uint16_via_vbr_witness :
    readUInt16 (writeUInt16 40000 ++ []) = some (40000, []) :=
  claim_C10_uint16_via_vbr.2.1 40000 [] (by norm_num)

/-! ## Pointer literals (`writeLitVal(void*)`, `readLitVal(void**)`)

Embedded from the inline bodies in `Bytecode.h` (lines 248-250, 384).
The writer's body is `assert(P == nullptr && "Cannot serialize non-null
pointer literal.")` followed by no writes at all; the assertion failure is
modelled as `Except.error`.  The reader's body is `return nullptr`,
consuming nothing from the stream. -/

/-- `BytecodeWriter::writeLitVal(void* P)`: a null pointer serializes to no
payload bits; a non-null pointer is a serialization error raised before any
bytes are emitted. -/
def writeLitValPtr : Option Unit → Except String (List Bool)
  | none => .ok []
  | some _ => .error "Cannot serialize non-null pointer literal."

/-- `BytecodeReader::readLitVal(void**)`: always returns `nullptr` and
consumes nothing. -/
def readLitValPtr (s : List Bool) : Option Unit × List Bool := (none, s)

/-- C6: serializing a non-null pointer literal fails (asserts) before any
bytes are emitted; a null pointer literal is serialized with no value
payload; the reader always reconstructs the null pointer, so the writer
never encodes a non-null pointer. -/
theorem claim_C6_pointer_literal :
    writeLitValPtr none = .ok [] ∧
    (∀ p, writeLitValPtr (some p) =
        .error "Cannot serialize non-null pointer literal.") ∧
    (∀ s, readLitValPtr s = (none, s)) :=
  ⟨rfl, fun _ => rfl, fun _ => rfl⟩

/-! ## Error handling of the deserializing driver

`BytecodeReader::fail` is inline in `Bytecode.h` (lines 390-393): print the
diagnostic to the error sink and set `Success = false`; `success()` (line
470) just returns the flag.  The `read()` driver body is in the missing
`Bytecode.cpp`; it is modelled from the spec (§4.E "Error signaling", §8.8
"Failure is sticky"). -/

/-- The error-relevant state of a `BytecodeReader`: the `Success` flag and
the diagnostics printed so far to the collaborator's error sink. -/
structure ReaderState where
  success : Bool
  diags : List String
  deriving DecidableEq

/-- The state established by the `BytecodeReader` constructor:
`Success(true)` and nothing printed. -/
def initReaderState : ReaderState := ⟨true, []⟩

/-- `BytecodeReader::fail`: emits the diagnostic once to the error sink and
sets `Success = false`. -/
def failReader (s : ReaderState) (msg : String) : ReaderState :=
  ⟨false, s.diags ++ [msg]⟩

/-- Modelled from the spec: `BytecodeReader::read` (body in the missing
`Bytecode.cpp`).  `decode` stands for the outcome of decoding the stream:
`some e` when decoding succeeds with root `e`, `none` when a fatal condition
with diagnostic `msg` occurs.  Per spec §4.E, a fatal condition sets
`success()` to false via `fail` and makes `read()` return a null root, and
after any fatal error subsequent reads produce no additional output. -/
def readDriver {α : Type} (decode : Option α) (msg : String)
    (s : ReaderState) : Option α × ReaderState :=
  if s.success then
    match decode with
    | some e => (some e, s)
    | none => (none, failReader s msg)
  else
    (none, s)

/-- C4: any fatal condition during decoding sets the single `success()` flag
to false, emits the diagnostic exactly once, and makes `read()` return a
null root; failure is sticky: once `success()` is false, subsequent read
operations return null and produce no additional output. -/
theorem claim_C4_sticky_failure :
    (∀ (α : Type) (msg : String) (s : ReaderState) (d : Option α),
        s.success = true → d = none →
          (readDriver d msg s).1 = none ∧
          (readDriver d msg s).2.success = false ∧
          (readDriver d msg s).2.diags = s.diags ++ [msg]) ∧
    (∀ (α : Type) (msg : String) (s : ReaderState) (d : Option α),
        s.success = false → readDriver d msg s = (none, s)) := by
  constructor
  · intro α msg s d hs hd
    subst hd
    simp [readDriver, hs, failReader]
  · intro α msg s d hs
    simp [readDriver, hs]

theorem claim_C4_sticky_failure_witness :
    (readDriver (α := Nat) none "bad stream" initReaderState).1 = none ∧
    (readDriver (α := Nat) none "bad stream" initReaderState).2.success = false ∧
    readDriver (α := Nat) (some 7) "more"
      (readDriver (α := Nat) none "bad stream" initReaderState).2 =
      (none, ⟨false, ["bad stream"]⟩) :=
  have h1 := claim_C4_sticky_failure.1 Nat "bad stream" initReaderState none
    rfl rfl
  have h2 := claim_C4_sticky_failure.2 Nat "more"
    (readDriver (α := Nat) none "bad stream" initReaderState).2 (some 7)
    (by exact h1.2.1)
  ⟨h1.1, h1.2.1, by rw [h2]; rfl⟩

/-! ## The reader's `Vars` symbol table

The `BytecodeReader` constructor is inline in `Bytecode.h` (lines 462-466):
it performs `Vars.push_back(nullptr)` with the comment "indices start at 1".
The operations that later touch `Vars` (`enterScope`, `exitScope`,
`getVarDecl`) have their bodies in the missing `Bytecode.cpp` and are
modelled from the spec (§4.E, §4.F): `EnterScope` allocates a new `VarDecl`
in the symbol table, `ExitScope` pops the innermost scope, and lookup by
out-of-range index is a fatal error. -/

/-- The `Vars` vector as the constructor leaves it: one reserved null slot. -/
def initVars : List (Option Nat) := [none]

/-- The operations a decode performs on `Vars`. -/
inductive VarOp where
  | enter (vd : Nat)
  | exitS
  deriving DecidableEq

/-- Modelled from the spec: `EnterScope` appends a freshly allocated
declaration; `ExitScope` pops the innermost scope (never the reserved
slot 0). -/
def applyVarOp (vs : List (Option Nat)) : VarOp → List (Option Nat)
  | .enter vd => vs ++ [some vd]
  | .exitS => if vs.length ≤ 1 then vs else vs.dropLast

/-- Modelled from the spec: `BytecodeReader::getVarDecl` looks the index up
in `Vars`; an out-of-range index is a fatal error (`none`). -/
def getVarDecl (vs : List (Option Nat)) (i : Nat) : Option (Option Nat) :=
  vs[i]?

theorem vars_invariant (ops : List VarOp) :
    ∀ vs : List (Option Nat),
      (∃ rest, vs = none :: rest ∧ ∀ x ∈ rest, x ≠ none) →
      ∃ rest, ops.foldl applyVarOp vs = none :: rest ∧ ∀ x ∈ rest, x ≠ none := by
  induction ops with
  | nil => intro vs h; simpa using h
  | cons op ops ih =>
    intro vs h
    obtain ⟨tail, hvs, htail⟩ := h
    subst hvs
    simp only [List.foldl_cons]
    apply ih
    cases op with
    | enter vd =>
      refine ⟨tail ++ [some vd], by simp [applyVarOp], ?_⟩
      intro x hx
      rcases List.mem_append.mp hx with hx | hx
      · exact htail x hx
      · simp at hx; simp [hx]
    | exitS =>
      cases tail with
      | nil => exact ⟨[], by simp [applyVarOp], by simp⟩
      | cons y ys =>
        refine ⟨(y :: ys).dropLast, ?_, ?_⟩
        · have hlen : ¬ ((none :: y :: ys : List (Option Nat)).length ≤ 1) := by
            simp
          simp only [applyVarOp, if_neg hlen, List.dropLast_cons₂]
        · intro x hx
          exact htail x (List.dropLast_subset (y :: ys) hx)

/-- C9: the reader's `Vars` table is 1-indexed with slot 0 permanently
reserved as a null entry: it is established at construction
(`Vars.push_back(nullptr)`) and survives every sequence of scope
operations, so index 0 always denotes "no variable" and any index that
yields a live declaration is ≥ 1; indices past the end are a fatal lookup
error. -/
theorem claim_C9_vars_one_indexed :
    getVarDecl initVars 0 = some none ∧
    getVarDecl initVars 1 = none ∧
    (∀ ops : List VarOp,
      getVarDecl (ops.foldl applyVarOp initVars) 0 = some none ∧
      1 ≤ (ops.foldl applyVarOp initVars).length ∧
      (∀ i vd, getVarDecl (ops.foldl applyVarOp initVars) i = some (some vd) →
        1 ≤ i)) := by
  refine ⟨rfl, rfl, ?_⟩
  intro ops
  obtain ⟨rest, heq, hrest⟩ :=
    vars_invariant ops initVars ⟨[], rfl, by simp⟩
  rw [heq]
  refine ⟨by simp [getVarDecl], by simp, ?_⟩
  intro i vd hi
  by_contra hlt
  have hi0 : i = 0 := by omega
  subst hi0
  simp [getVarDecl] at hi

theorem claim_C9_vars_one_indexed_witness :
    getVarDecl ([VarOp.enter 7, VarOp.exitS, VarOp.enter 5].foldl
      applyVarOp initVars) 0 = some none ∧
    (getVarDecl ([VarOp.enter 7, VarOp.exitS, VarOp.enter 5].foldl
      applyVarOp initVars) 1 = some (some 5) → (1 : Nat) ≤ 1) :=
  ⟨(claim_C9_vars_one_indexed.2.2 [VarOp.enter 7, VarOp.exitS, VarOp.enter 5]).1,
   fun h => (claim_C9_vars_one_indexed.2.2
     [VarOp.enter 7, VarOp.exitS, VarOp.enter 5]).2.2 1 5 h⟩

/-! ## The serialized IR: node vocabulary, writer and reader

`BytecodeWriter` declares one `reduce*` method and `BytecodeReader` one
`read*` method per IR node kind (`Bytecode.h` lines 295-332 and 421-459);
their bodies are in the missing `Bytecode.cpp`.  The traversal scheme is
modelled from the spec (§4.D, §4.E): a post-order walk whose children are
serialized before the parent, one atom per node holding the opcode and the
node's scalar fields, explicit pseudo-opcode atoms for scope / CFG / block
boundaries and for basic-block arguments and instructions, annotation atoms
following the node they decorate, and a stack-driven reader that pops each
node's operands (arity fixed by the opcode) and pushes the rebuilt node.

Cross-references (variables, CFG blocks, weak instruction references) are
represented by their serialized indices on both sides, so the builder's
structural comparator is modelled as plain equality of the deep syntax.
The atoms below are the units the writer closes with `endAtom`; the
bit-level encoding of the individual fields inside an atom is the codec
verified above. -/

/-- Literal payloads, dispatched on the literal's base type
(`reduceLiteralT` / `readLitVal` overloads).  Floats are carried as their
IEEE-754 bit patterns, as the spec §4.A prescribes. -/
inductive LitVal where
  | b (v : Bool)
  | u8 (v : Nat) | u16 (v : Nat) | u32 (v : Nat) | u64 (v : Nat)
  | i8 (v : Int) | i16 (v : Int) | i32 (v : Int) | i64 (v : Int)
  | f32 (bits : Nat) | f64 (bits : Nat)
  | str (s : String)
  | ptrNull
  deriving DecidableEq

mutual
/-- An SExpr: a node body together with its annotation list
(`SExpr::annotations()`). -/
inductive SExpr where
  | mk (b : SBody) (anns : Anns)

/-- The node vocabulary, one constructor per `reduce*`/`read*` pair in
`Bytecode.h`.  Variables, block ids and weak instruction references carry
their serialized indices. -/
inductive SBody where
  | null
  | weak (idx : Nat)
  | varDecl (k : Nat) (name : String) (d : SExpr)
  | function (vd : SExpr) (body : SExpr)
  | code (returnT : SExpr) (body : SExpr) (cc : Nat)
  | field (range : SExpr) (body : SExpr)
  | slot (name : String) (d : SExpr)
  | record (slots : SExprs)
  | array (elems : SExprs)
  | scalarType (bt : Nat)
  | scfg (blocks : SExprs)
  | basicBlock (args : SExprs) (instrs : SExprs) (term : SExpr)
  | lit (v : LitVal)
  | var (idx : Nat)
  | apply (f : SExpr) (a : SExpr) (k : Nat)
  | project (r : SExpr) (name : String)
  | call (t : SExpr)
  | alloc (d : SExpr) (k : Nat)
  | load (p : SExpr)
  | store (p : SExpr) (v : SExpr)
  | arrayIndex (a : SExpr) (i : SExpr)
  | arrayAdd (a : SExpr) (i : SExpr)
  | unaryOp (op : Nat) (e : SExpr)
  | binaryOp (op : Nat) (e1 : SExpr) (e2 : SExpr)
  | cast (op : Nat) (e : SExpr)
  | phi (vals : SExprs)
  | goto (bid : Nat)
  | branch (c : SExpr) (thenBid : Nat) (elseBid : Nat)
  | switch (c : SExpr) (cases : SExprs)
  | ret (e : SExpr)
  | undefined
  | wildcard
  | identifier (name : String)
  | letE (vd : SExpr) (body : SExpr)
  | ifThenElse (c : SExpr) (t : SExpr) (e : SExpr)

/-- A list of SExprs (record slots, array elements, CFG blocks, block
arguments / instructions, switch cases, …). -/
inductive SExprs where
  | nil
  | cons (e : SExpr) (t : SExprs)

/-- The annotation vocabulary of `AnnotationImpl.h`: `InstrNameAnnot`,
`SourceLocAnnot`, `PreconditionAnnot`, `TestTripletAnnot`. -/
inductive Ann where
  | instrName (n : String)
  | sourceLoc (pos : Nat)
  | precondition (cond : SExpr)
  | testTriplet (a b c : SExpr)

/-- A node's annotation list (the `Annotation*` chain via `next()`). -/
inductive Anns where
  | nil
  | cons (a : Ann) (t : Anns)
end

/-- Length of an `SExprs` list. -/
def SExprs.len : SExprs → Nat
  | .nil => 0
  | .cons _ t => t.len + 1

/-- Append for `SExprs`. -/
def SExprs.append : SExprs → SExprs → SExprs
  | .nil, l => l
  | .cons e t, l => .cons e (t.append l)

/-- Append for `Anns`. -/
def Anns.append : Anns → Anns → Anns
  | .nil, l => l
  | .cons a t, l => .cons a (t.append l)

/-- The scalar payload of an annotation atom (the fields written after the
`PSOP_Annotation` pseudo-opcode and the 8-bit kind; sub-expressions are on
the reader's value stack, not in the atom). -/
inductive AnnPayload where
  | instrNameP (n : String)
  | sourceLocP (pos : Nat)
  | precondP
  | tripletP
  deriving DecidableEq

/-- The 8-bit `TIL_AnnKind` of an annotation payload.  The numeric values
live in the missing `TIL.h`; modelled from the declaration order of
`AnnotationImpl.h`. -/
def AnnPayload.kindOf : AnnPayload → Nat
  | .instrNameP _ => 0
  | .sourceLocP _ => 1
  | .precondP => 2
  | .tripletP => 3

/-- One atom of the serialized stream: the unit the writer closes with
`endAtom` (one per node, one per annotation, one per structural
pseudo-opcode marker).  Each constructor holds the scalar fields written
inside that atom. -/
inductive Atom where
  | enterScopeA
  | exitScopeA
  | enterCFGA (nblocks : Nat)
  | enterBlockA (nargs : Nat) (ninstrs : Nat)
  | bbArgA
  | bbInstrA
  | annA (p : AnnPayload)
  | nullA
  | weakA (idx : Nat)
  | varDeclA (k : Nat) (name : String)
  | functionA
  | codeA (cc : Nat)
  | fieldA
  | slotA (name : String)
  | recordA (n : Nat)
  | arrayA (n : Nat)
  | scalarTypeA (bt : Nat)
  | scfgA (n : Nat)
  | basicBlockA (nargs : Nat) (ninstrs : Nat)
  | litA (v : LitVal)
  | varA (idx : Nat)
  | applyA (k : Nat)
  | projectA (name : String)
  | callA
  | allocA (k : Nat)
  | loadA
  | storeA
  | arrayIndexA
  | arrayAddA
  | unaryOpA (op : Nat)
  | binaryOpA (op : Nat)
  | castA (op : Nat)
  | phiA (n : Nat)
  | gotoA (bid : Nat)
  | branchA (thenBid : Nat) (elseBid : Nat)
  | switchA (n : Nat)
  | returnA
  | undefinedA
  | wildcardA
  | identifierA (name : String)
  | letA
  | ifThenElseA
  deriving DecidableEq

mutual
/-- `BytecodeWriter::traverse` (inline in `Bytecode.h`, lines 253-264):
serialize the node itself (post-order, `SuperTv::traverse` then `endAtom`),
then each attached annotation as its own atom, in list order. -/
def writeSExpr : SExpr → List Atom
  | .mk b anns => writeSBody b ++ writeAnns anns

/-- The per-node `reduce*` emissions, modelled from spec §4.D: children
first (already emitted by the traversal), then one atom with the node's
opcode and scalar fields; scope/CFG/block boundaries appear as explicit
pseudo-opcode atoms around the bodies they delimit. -/
def writeSBody : SBody → List Atom
  | .null => [.nullA]
  | .weak i => [.weakA i]
  | .varDecl k n d => writeSExpr d ++ [.varDeclA k n]
  | .function vd body =>
      writeSExpr vd ++ [.enterScopeA] ++ writeSExpr body
        ++ [.exitScopeA, .functionA]
  | .code rt body cc => writeSExpr rt ++ writeSExpr body ++ [.codeA cc]
  | .field rg body => writeSExpr rg ++ writeSExpr body ++ [.fieldA]
  | .slot n d => writeSExpr d ++ [.slotA n]
  | .record slots => writeSExprs slots ++ [.recordA slots.len]
  | .array elems => writeSExprs elems ++ [.arrayA elems.len]
  | .scalarType bt => [.scalarTypeA bt]
  | .scfg blocks =>
      .enterCFGA blocks.len :: writeSExprs blocks ++ [.scfgA blocks.len]
  | .basicBlock args instrs term =>
      .enterBlockA args.len instrs.len
        :: (writeTagged .bbArgA args ++ writeTagged .bbInstrA instrs
             ++ writeSExpr term ++ [.basicBlockA args.len instrs.len])
  | .lit v => [.litA v]
  | .var i => [.varA i]
  | .apply f a k => writeSExpr f ++ writeSExpr a ++ [.applyA k]
  | .project r n => writeSExpr r ++ [.projectA n]
  | .call t => writeSExpr t ++ [.callA]
  | .alloc d k => writeSExpr d ++ [.allocA k]
  | .load p => writeSExpr p ++ [.loadA]
  | .store p v => writeSExpr p ++ writeSExpr v ++ [.storeA]
  | .arrayIndex a i => writeSExpr a ++ writeSExpr i ++ [.arrayIndexA]
  | .arrayAdd a i => writeSExpr a ++ writeSExpr i ++ [.arrayAddA]
  | .unaryOp op e => writeSExpr e ++ [.unaryOpA op]
  | .binaryOp op e1 e2 => writeSExpr e1 ++ writeSExpr e2 ++ [.binaryOpA op]
  | .cast op e => writeSExpr e ++ [.castA op]
  | .phi vals => writeSExprs vals ++ [.phiA vals.len]
  | .goto bid => [.gotoA bid]
  | .branch c t e => writeSExpr c ++ [.branchA t e]
  | .switch c cases => writeSExpr c ++ writeSExprs cases ++ [.switchA cases.len]
  | .ret e => writeSExpr e ++ [.returnA]
  | .undefined => [.undefinedA]
  | .wildcard => [.wildcardA]
  | .identifier n => [.identifierA n]
  | .letE vd body => writeSExpr vd ++ writeSExpr body ++ [.letA]
  | .ifThenElse c t e =>
      writeSExpr c ++ writeSExpr t ++ writeSExpr e ++ [.ifThenElseA]

/-- Serialize a list of sub-expressions in order. -/
def writeSExprs : SExprs → List Atom
  | .nil => []
  | .cons e t => writeSExpr e ++ writeSExprs t

/-- Serialize a list where each element is introduced by a marker atom
(`BBArgument` / `BBInstruction`, spec §4.D). -/
def writeTagged (tag : Atom) : SExprs → List Atom
  | .nil => []
  | .cons e t => tag :: writeSExpr e ++ writeTagged tag t

/-- `reduceAnnotationT` together with each annotation's `traverse` from
`AnnotationImpl.h`: sub-expressions are traversed first (pushed on the
reader's stack), then one atom with `PSOP_Annotation`, the 8-bit kind and
the scalar payload. -/
def writeAnn : Ann → List Atom
  | .instrName n => [.annA (.instrNameP n)]
  | .sourceLoc pos => [.annA (.sourceLocP pos)]
  | .precondition c => writeSExpr c ++ [.annA .precondP]
  | .testTriplet a b c =>
      writeSExpr a ++ writeSExpr b ++ writeSExpr c ++ [.annA .tripletP]

/-- Serialize the annotation list in order (the writer's `while (A)` loop). -/
def writeAnns : Anns → List Atom
  | .nil => []
  | .cons a t => writeAnn a ++ writeAnns t
end

/-- `BytecodeWriter::write`: traverse the root and flush. -/
def write (e : SExpr) : List Atom := writeSExpr e

/-- Push a list of sub-expressions onto the value stack in serialization
order (each element ends on top of the previous ones). -/
def pushAll : SExprs → List SExpr → List SExpr
  | .nil, s => s
  | .cons e t, s => pushAll t (e :: s)

/-- Pop `n` operands from the value stack, restoring serialization order
(`lastArgs(n)` in `Bytecode.h`); `none` on operand underflow. -/
def popAcc : Nat → List SExpr → SExprs → Option (SExprs × List SExpr)
  | 0, s, acc => some (acc, s)
  | n + 1, x :: s, acc => popAcc n s (.cons x acc)
  | _ + 1, [], _ => none

def popN (n : Nat) (s : List SExpr) : Option (SExprs × List SExpr) :=
  popAcc n s .nil

/-- Attach a decoded annotation to the most recently produced node
(spec §4.E: "attaching each to the most-recently pushed node"). -/
def attachAnn (a : Ann) : List SExpr → Option (List SExpr)
  | .mk b anns :: s => some (.mk b (anns.append (.cons a .nil)) :: s)
  | [] => none

/-- One step of the deserializing driver, modelled from spec §4.E: a real
opcode pops the node's operands (arity fixed by the opcode), rebuilds the
node through the builder and pushes it; a pseudo-opcode is handled as a
structural marker; an annotation atom pops the annotation's sub-expressions
and attaches the annotation to the node on top of the stack. -/
def step : Atom → List SExpr → Option (List SExpr)
  | .enterScopeA, s => some s
  | .exitScopeA, s => some s
  | .enterCFGA _, s => some s
  | .enterBlockA _ _, s => some s
  | .bbArgA, s => some s
  | .bbInstrA, s => some s
  | .annA (.instrNameP n), s => attachAnn (.instrName n) s
  | .annA (.sourceLocP pos), s => attachAnn (.sourceLoc pos) s
  | .annA .precondP, c :: s => attachAnn (.precondition c) s
  | .annA .precondP, [] => none
  | .annA .tripletP, c :: b :: a :: s => attachAnn (.testTriplet a b c) s
  | .annA .tripletP, _ => none
  | .nullA, s => some (.mk .null .nil :: s)
  | .weakA i, s => some (.mk (.weak i) .nil :: s)
  | .varDeclA k n, d :: s => some (.mk (.varDecl k n d) .nil :: s)
  | .varDeclA _ _, [] => none
  | .functionA, body :: vd :: s => some (.mk (.function vd body) .nil :: s)
  | .functionA, _ => none
  | .codeA cc, body :: rt :: s => some (.mk (.code rt body cc) .nil :: s)
  | .codeA _, _ => none
  | .fieldA, body :: rg :: s => some (.mk (.field rg body) .nil :: s)
  | .fieldA, _ => none
  | .slotA n, d :: s => some (.mk (.slot n d) .nil :: s)
  | .slotA _, [] => none
  | .recordA n, s =>
      match popN n s with
      | some (slots, s') => some (.mk (.record slots) .nil :: s')
      | none => none
  | .arrayA n, s =>
      match popN n s with
      | some (elems, s') => some (.mk (.array elems) .nil :: s')
      | none => none
  | .scalarTypeA bt, s => some (.mk (.scalarType bt) .nil :: s)
  | .scfgA n, s =>
      match popN n s with
      | some (blocks, s') => some (.mk (.scfg blocks) .nil :: s')
      | none => none
  | .basicBlockA na ni, term :: s =>
      match popN ni s with
      | some (instrs, s') =>
          match popN na s' with
          | some (args, s'') =>
              some (.mk (.basicBlock args instrs term) .nil :: s'')
          | none => none
      | none => none
  | .basicBlockA _ _, [] => none
  | .litA v, s => some (.mk (.lit v) .nil :: s)
  | .varA i, s => some (.mk (.var i) .nil :: s)
  | .applyA k, a :: f :: s => some (.mk (.apply f a k) .nil :: s)
  | .applyA _, _ => none
  | .projectA n, r :: s => some (.mk (.project r n) .nil :: s)
  | .projectA _, [] => none
  | .callA, t :: s => some (.mk (.call t) .nil :: s)
  | .callA, [] => none
  | .allocA k, d :: s => some (.mk (.alloc d k) .nil :: s)
  | .allocA _, [] => none
  | .loadA, p :: s => some (.mk (.load p) .nil :: s)
  | .loadA, [] => none
  | .storeA, v :: p :: s => some (.mk (.store p v) .nil :: s)
  | .storeA, _ => none
  | .arrayIndexA, i :: a :: s => some (.mk (.arrayIndex a i) .nil :: s)
  | .arrayIndexA, _ => none
  | .arrayAddA, i :: a :: s => some (.mk (.arrayAdd a i) .nil :: s)
  | .arrayAddA, _ => none
  | .unaryOpA op, e :: s => some (.mk (.unaryOp op e) .nil :: s)
  | .unaryOpA _, [] => none
  | .binaryOpA op, e2 :: e1 :: s => some (.mk (.binaryOp op e1 e2) .nil :: s)
  | .binaryOpA _, _ => none
  | .castA op, e :: s => some (.mk (.cast op e) .nil :: s)
  | .castA _, [] => none
  | .phiA n, s =>
      match popN n s with
      | some (vals, s') => some (.mk (.phi vals) .nil :: s')
      | none => none
  | .gotoA bid, s => some (.mk (.goto bid) .nil :: s)
  | .branchA t e, c :: s => some (.mk (.branch c t e) .nil :: s)
  | .branchA _ _, [] => none
  | .switchA n, s =>
      match popN n s with
      | some (cases, s') =>
          match s' with
          | c :: s'' => some (.mk (.switch c cases) .nil :: s'')
          | [] => none
      | none => none
  | .returnA, e :: s => some (.mk (.ret e) .nil :: s)
  | .returnA, [] => none
  | .undefinedA, s => some (.mk .undefined .nil :: s)
  | .wildcardA, s => some (.mk .wildcard .nil :: s)
  | .identifierA n, s => some (.mk (.identifier n) .nil :: s)
  | .letA, body :: vd :: s => some (.mk (.letE vd body) .nil :: s)
  | .letA, _ => none
  | .ifThenElseA, e :: t :: c :: s => some (.mk (.ifThenElse c t e) .nil :: s)
  | .ifThenElseA, _ => none

/-- The driver loop: read atoms one at a time and dispatch. -/
def runAtoms : List Atom → List SExpr → Option (List SExpr)
  | [], s => some s
  | a :: r, s =>
      match step a s with
      | some s' => runAtoms r s'
      | none => none

/-- `BytecodeReader::read`, modelled from spec §4.E "Termination": the
driver stops when the stream is consumed and the value stack contains
exactly one entry, the reconstructed root; any other residual stack state
is a protocol violation (null result). -/
def readTop (atoms : List Atom) : Option SExpr :=
  match runAtoms atoms [] with
  | some [e] => some e
  | _ => none

theorem anns_append_nil : ∀ l : Anns, l.append .nil = l
  | .nil => rfl
  | .cons a t => by rw [Anns.append, anns_append_nil t]

theorem anns_append_assoc : ∀ x y z : Anns,
    (x.append y).append z = x.append (y.append z)
  | .nil, _, _ => rfl
  | .cons a t, y, z => by
      rw [Anns.append, Anns.append, Anns.append, anns_append_assoc t y z]

theorem sexprs_append_nil : ∀ l : SExprs, l.append .nil = l
  | .nil => rfl
  | .cons e t => by rw [SExprs.append, sexprs_append_nil t]

theorem popAcc_pushAll : ∀ (l : SExprs) (s : List SExpr) (acc : SExprs) (k : Nat),
    popAcc (l.len + k) (pushAll l s) acc = popAcc k s (l.append acc)
  | .nil, s, acc, k => by
      rw [SExprs.append]
      show popAcc (SExprs.len .nil + k) (pushAll .nil s) acc = popAcc k s acc
      rw [SExprs.len, pushAll]
      simp
  | .cons e t, s, acc, k => by
      have h1 : (SExprs.cons e t).len + k = t.len + (k + 1) := by
        rw [SExprs.len]; omega
      rw [h1, SExprs.append, pushAll, popAcc_pushAll t (e :: s) acc (k + 1)]
      rfl

theorem popN_pushAll (l : SExprs) (s : List SExpr) :
    popN l.len (pushAll l s) = some (l, s) := by
  have h := popAcc_pushAll l s .nil 0
  rw [Nat.add_zero, sexprs_append_nil] at h
  rw [popN, h]
  rfl

theorem runAtoms_cons_of_step (a : Atom) (r : List Atom) (s s' : List SExpr)
    (h : step a s = some s') : runAtoms (a :: r) s = runAtoms r s' := by
  rw [runAtoms, h]

theorem runAtoms_enterScope (r : List Atom) (s : List SExpr) :
    runAtoms (.enterScopeA :: r) s = runAtoms r s := rfl

theorem runAtoms_exitScope (r : List Atom) (s : List SExpr) :
    runAtoms (.exitScopeA :: r) s = runAtoms r s := rfl

theorem runAtoms_enterCFG (n : Nat) (r : List Atom) (s : List SExpr) :
    runAtoms (.enterCFGA n :: r) s = runAtoms r s := rfl

theorem runAtoms_enterBlock (na ni : Nat) (r : List Atom) (s : List SExpr) :
    runAtoms (.enterBlockA na ni :: r) s = runAtoms r s := rfl

mutual

/-- Running the serialized form of `e` leaves exactly `e` pushed on the
value stack and continues with the rest of the stream: the reader inverts
the writer one node at a time. -/
theorem run_writeSExpr : ∀ (e : SExpr) (r : List Atom) (s : List SExpr),
    runAtoms (writeSExpr e ++ r) s = runAtoms r (e :: s)
  | .mk b anns, r, s => by
      rw [writeSExpr, List.append_assoc, run_writeSBody b, run_writeAnns anns]
      rfl
termination_by e r s => sizeOf e

theorem run_writeSBody : ∀ (b : SBody) (r : List Atom) (s : List SExpr),
    runAtoms (writeSBody b ++ r) s = runAtoms r (.mk b .nil :: s)
  | .null, r, s => by
      simp only [writeSBody, List.singleton_append]
      exact runAtoms_cons_of_step _ _ _ _ rfl
  | .weak i, r, s => by
      simp only [writeSBody, List.singleton_append]
      exact runAtoms_cons_of_step _ _ _ _ rfl
  | .varDecl k n d, r, s => by
      simp only [writeSBody, List.append_assoc, List.singleton_append]
      rw [run_writeSExpr d]
      exact runAtoms_cons_of_step _ _ _ _ rfl
  | .function vd body, r, s => by
      simp only [writeSBody, List.append_assoc, List.cons_append,
        List.singleton_append, List.nil_append]
      rw [run_writeSExpr vd, runAtoms_enterScope, run_writeSExpr body,
        runAtoms_exitScope]
      exact runAtoms_cons_of_step _ _ _ _ rfl
  | .code rt body cc, r, s => by
      simp only [writeSBody, List.append_assoc, List.singleton_append]
      rw [run_writeSExpr rt, run_writeSExpr body]
      exact runAtoms_cons_of_step _ _ _ _ rfl
  | .field rg body, r, s => by
      simp only [writeSBody, List.append_assoc, List.singleton_append]
      rw [run_writeSExpr rg, run_writeSExpr body]
      exact runAtoms_cons_of_step _ _ _ _ rfl
  | .slot n d, r, s => by
      simp only [writeSBody, List.append_assoc, List.singleton_append]
      rw [run_writeSExpr d]
      exact runAtoms_cons_of_step _ _ _ _ rfl
  | .record slots, r, s => by
      simp only [writeSBody, List.append_assoc, List.singleton_append]
      rw [run_writeSExprs slots]
      refine runAtoms_cons_of_step _ _ _ _ ?_
      simp only [step, popN_pushAll]
  | .array elems, r, s => by
      simp only [writeSBody, List.append_assoc, List.singleton_append]
      rw [run_writeSExprs elems]
      refine runAtoms_cons_of_step _ _ _ _ ?_
      simp only [step, popN_pushAll]
  | .scalarType bt, r, s => by
      simp only [writeSBody, List.singleton_append]
      exact runAtoms_cons_of_step _ _ _ _ rfl
  | .scfg blocks, r, s => by
      simp only [writeSBody, List.append_assoc, List.cons_append,
        List.singleton_append, List.nil_append]
      rw [runAtoms_enterCFG, run_writeSExprs blocks]
      refine runAtoms_cons_of_step _ _ _ _ ?_
      simp only [step, popN_pushAll]
  | .basicBlock args instrs term, r, s => by
      simp only [writeSBody, List.append_assoc, List.cons_append,
        List.singleton_append, List.nil_append]
      rw [runAtoms_enterBlock, run_writeTagged .bbArgA (fun _ => rfl) args,
        run_writeTagged .bbInstrA (fun _ => rfl) instrs, run_writeSExpr term]
      refine runAtoms_cons_of_step _ _ _ _ ?_
      simp only [step, popN_pushAll]
  | .lit v, r, s => by
      simp only [writeSBody, List.singleton_append]
      exact runAtoms_cons_of_step _ _ _ _ rfl
  | .var i, r, s => by
      simp only [writeSBody, List.singleton_append]
      exact runAtoms_cons_of_step _ _ _ _ rfl
  | .apply f a k, r, s => by
      simp only [writeSBody, List.append_assoc, List.singleton_append]
      rw [run_writeSExpr f, run_writeSExpr a]
      exact runAtoms_cons_of_step _ _ _ _ rfl
  | .project rc n, r, s => by
      simp only [writeSBody, List.append_assoc, List.singleton_append]
      rw [run_writeSExpr rc]
      exact runAtoms_cons_of_step _ _ _ _ rfl
  | .call t, r, s => by
      simp only [writeSBody, List.append_assoc, List.singleton_append]
      rw [run_writeSExpr t]
      exact runAtoms_cons_of_step _ _ _ _ rfl
  | .alloc d k, r, s => by
      simp only [writeSBody, List.append_assoc, List.singleton_append]
      rw [run_writeSExpr d]
      exact runAtoms_cons_of_step _ _ _ _ rfl
  | .load p, r, s => by
      simp only [writeSBody, List.append_assoc, List.singleton_append]
      rw [run_writeSExpr p]
      exact runAtoms_cons_of_step _ _ _ _ rfl
  | .store p v, r, s => by
      simp only [writeSBody, List.append_assoc, List.singleton_append]
      rw [run_writeSExpr p, run_writeSExpr v]
      exact runAtoms_cons_of_step _ _ _ _ rfl
  | .arrayIndex a i, r, s => by
      simp only [writeSBody, List.append_assoc, List.singleton_append]
      rw [run_writeSExpr a, run_writeSExpr i]
      exact runAtoms_cons_of_step _ _ _ _ rfl
  | .arrayAdd a i, r, s => by
      simp only [writeSBody, List.append_assoc, List.singleton_append]
      rw [run_writeSExpr a, run_writeSExpr i]
      exact runAtoms_cons_of_step _ _ _ _ rfl
  | .unaryOp op e, r, s => by
      simp only [writeSBody, List.append_assoc, List.singleton_append]
      rw [run_writeSExpr e]
      exact runAtoms_cons_of_step _ _ _ _ rfl
  | .binaryOp op e1 e2, r, s => by
      simp only [writeSBody, List.append_assoc, List.singleton_append]
      rw [run_writeSExpr e1, run_writeSExpr e2]
      exact runAtoms_cons_of_step _ _ _ _ rfl
  | .cast op e, r, s => by
      simp only [writeSBody, List.append_assoc, List.singleton_append]
      rw [run_writeSExpr e]
      exact runAtoms_cons_of_step _ _ _ _ rfl
  | .phi vals, r, s => by
      simp only [writeSBody, List.append_assoc, List.singleton_append]
      rw [run_writeSExprs vals]
      refine runAtoms_cons_of_step _ _ _ _ ?_
      simp only [step, popN_pushAll]
  | .goto bid, r, s => by
      simp only [writeSBody, List.singleton_append]
      exact runAtoms_cons_of_step _ _ _ _ rfl
  | .branch c t e, r, s => by
      simp only [writeSBody, List.append_assoc, List.singleton_append]
      rw [run_writeSExpr c]
      exact runAtoms_cons_of_step _ _ _ _ rfl
  | .switch c cases, r, s => by
      simp only [writeSBody, List.append_assoc, List.singleton_append]
      rw [run_writeSExpr c, run_writeSExprs cases]
      refine runAtoms_cons_of_step _ _ _ _ ?_
      simp only [step, popN_pushAll]
  | .ret e, r, s => by
      simp only [writeSBody, List.append_assoc, List.singleton_append]
      rw [run_writeSExpr e]
      exact runAtoms_cons_of_step _ _ _ _ rfl
  | .undefined, r, s => by
      simp only [writeSBody, List.singleton_append]
      exact runAtoms_cons_of_step _ _ _ _ rfl
  | .wildcard, r, s => by
      simp only [writeSBody, List.singleton_append]
      exact runAtoms_cons_of_step _ _ _ _ rfl
  | .identifier n, r, s => by
      simp only [writeSBody, List.singleton_append]
      exact runAtoms_cons_of_step _ _ _ _ rfl
  | .letE vd body, r, s => by
      simp only [writeSBody, List.append_assoc, List.singleton_append]
      rw [run_writeSExpr vd, run_writeSExpr body]
      exact runAtoms_cons_of_step _ _ _ _ rfl
  | .ifThenElse c t e, r, s => by
      simp only [writeSBody, List.append_assoc, List.singleton_append]
      rw [run_writeSExpr c, run_writeSExpr t, run_writeSExpr e]
      exact runAtoms_cons_of_step _ _ _ _ rfl
termination_by b r s => sizeOf b

theorem run_writeSExprs : ∀ (l : SExprs) (r : List Atom) (s : List SExpr),
    runAtoms (writeSExprs l ++ r) s = runAtoms r (pushAll l s)
  | .nil, r, s => by simp only [writeSExprs, List.nil_append, pushAll]
  | .cons e t, r, s => by
      simp only [writeSExprs, List.append_assoc, pushAll]
      rw [run_writeSExpr e, run_writeSExprs t]
termination_by l r s => sizeOf l

theorem run_writeTagged : ∀ (tag : Atom) (htag : ∀ s, step tag s = some s)
    (l : SExprs) (r : List Atom) (s : List SExpr),
    runAtoms (writeTagged tag l ++ r) s = runAtoms r (pushAll l s)
  | _, _, .nil, r, s => by simp only [writeTagged, List.nil_append, pushAll]
  | tag, htag, .cons e t, r, s => by
      simp only [writeTagged, List.cons_append, List.append_assoc, pushAll]
      rw [runAtoms_cons_of_step tag _ s s (htag s)]
      rw [run_writeSExpr e, run_writeTagged tag htag t]
termination_by tag htag l r s => sizeOf l

theorem run_writeAnn : ∀ (a : Ann) (r : List Atom) (b : SBody) (anns : Anns)
    (s : List SExpr),
    runAtoms (writeAnn a ++ r) (.mk b anns :: s) =
      runAtoms r (.mk b (anns.append (.cons a .nil)) :: s)
  | .instrName n, r, b, anns, s => by
      simp only [writeAnn, List.singleton_append]
      exact runAtoms_cons_of_step _ _ _ _ rfl
  | .sourceLoc pos, r, b, anns, s => by
      simp only [writeAnn, List.singleton_append]
      exact runAtoms_cons_of_step _ _ _ _ rfl
  | .precondition c, r, b, anns, s => by
      simp only [writeAnn, List.append_assoc, List.singleton_append]
      rw [run_writeSExpr c]
      exact runAtoms_cons_of_step _ _ _ _ rfl
  | .testTriplet x y z, r, b, anns, s => by
      simp only [writeAnn, List.append_assoc, List.singleton_append]
      rw [run_writeSExpr x, run_writeSExpr y, run_writeSExpr z]
      exact runAtoms_cons_of_step _ _ _ _ rfl
termination_by a r b anns s => sizeOf a

theorem run_writeAnns : ∀ (as : Anns) (r : List Atom) (b : SBody)
    (anns : Anns) (s : List SExpr),
    runAtoms (writeAnns as ++ r) (.mk b anns :: s) =
      runAtoms r (.mk b (anns.append as) :: s)
  | .nil, r, b, anns, s => by
      simp only [writeAnns, List.nil_append, anns_append_nil]
  | .cons a t, r, b, anns, s => by
      simp only [writeAnns, List.append_assoc]
      rw [run_writeAnn a, run_writeAnns t, anns_append_assoc]
      rfl
termination_by as r b anns s => sizeOf as

end

/-- Reading back a written root reconstructs it exactly: the stream is
consumed and the value stack holds exactly the root. -/
theorem readTop_write (e : SExpr) : readTop (write e) = some e := by
  have h0 := run_writeSExpr e [] []
  rw [List.append_nil] at h0
  simp only [readTop, write, h0]
  rfl

/-- C1: for every constructible SExpr in the node vocabulary (literals of
each base type, variables, functions, codes, records, arrays, operator
nodes, full CFGs with phi nodes, loads/stores, control terminators, and
annotations of every kind), deserializing the serialized form yields an
expression structurally equal to the original:
`read (write e) = e` under the structural comparator (modelled as equality
of the deep syntax, with cross-references carried as serialized indices). -/
theorem claim_C1_write_read_roundtrip (e : SExpr) :
    readTop (write e) = some e :=
  readTop_write e

/-- Projection of a node's annotation list. -/
def SExpr.annsOf : SExpr → Anns
  | .mk _ anns => anns

/-- The scalar payload the writer puts into an annotation's atom. -/
def annPayload : Ann → AnnPayload
  | .instrName n => .instrNameP n
  | .sourceLoc pos => .sourceLocP pos
  | .precondition _ => .precondP
  | .testTriplet _ _ _ => .tripletP

/-- The bit-level start of an annotation atom: the 6-bit `PSOP_Annotation`
pseudo-opcode followed by the annotation's 8-bit kind
(`reduceAnnotationT`: `writePseudoOpcode(PSOP_Annotation); writeFlag(A->kind())`). -/
def annAtomHeader (p : AnnPayload) : List Bool :=
  writePseudoOpcode PSOP_Annot ++ writeFlag .annKind p.kindOf

/-- C5: for a node with attached annotations `[a1, a2, …]` the writer first
closes the node's own atom and then emits each annotation as its own atom in
list order; each annotation's emission ends in exactly one annotation atom,
whose bit-level form starts with the `PSOP_Annotation` pseudo-opcode (6
bits) followed by the annotation's 8-bit kind; and after decoding, the
node's annotation list equals `[a1, a2, …]` in the same order. -/
theorem claim_C5_annotation_atoms :
    (∀ b anns, writeSExpr (.mk b anns) = writeSBody b ++ writeAnns anns) ∧
    (∀ a t, writeAnns (.cons a t) = writeAnn a ++ writeAnns t) ∧
    (∀ a : Ann, ∃ pre, writeAnn a = pre ++ [.annA (annPayload a)]) ∧
    (∀ p : AnnPayload,
        annAtomHeader p = natBits 6 PSOP_Annot ++ natBits 8 p.kindOf) ∧
    (∀ b anns,
        (readTop (write (.mk b anns))).map SExpr.annsOf = some anns) := by
  refine ⟨fun b anns => rfl, fun a t => rfl, ?_, fun p => rfl, ?_⟩
  · intro a
    cases a with
    | instrName n => exact ⟨[], rfl⟩
    | sourceLoc pos => exact ⟨[], rfl⟩
    | precondition c => exact ⟨writeSExpr c, rfl⟩
    | testTriplet x y z =>
        refine ⟨writeSExpr x ++ writeSExpr y ++ writeSExpr z, ?_⟩
        simp [writeAnn, annPayload]
  · intro b anns
    rw [readTop_write (.mk b anns)]
    rfl
